import Mathlib

/-!
Verification of the device-communication core of the Elbot 6-DOF arm
controller (the `SerialConnection` component and its helpers).

The embedding models, directly from the source:
* the line reassembler of `readSerialData` (buffer + split on `'\n'`);
* the regex-based field extraction and `processCommand` decoding of
  `G06` motion lines;
* the outbound encoder of `sendJointStates` (six fields, one decimal
  place, fixed `F500`);
* the trajectory logic of `smoothMoveTo` / `animate` (duration formula,
  linear interpolation, completion + delayed `Ok` ack);
* the connection teardown of `disconnectSerial` and the `sendOkResponse`
  guard.

Numbers: JavaScript floating-point arithmetic is idealised as exact real
arithmetic (`ℝ`), and parsed decimal literals as exact rationals (`ℚ`).
`Number.prototype.toFixed(1)` is modelled per the ECMColor spec as
"negate if negative, then round `|x|*10` to the nearest integer" using
Mathlib's `round`.  React `useState` cells are modelled as a plain
mutable store holding the latest value of each state variable.
-/

namespace Elbot

/-- The six joints of the arm, `theta1 .. theta6` (`src/app/types/robot.ts`
restricted to the fixed closed key set the spec demands). -/
inductive Joint where
  | theta1 | theta2 | theta3 | theta4 | theta5 | theta6
deriving DecidableEq, Repr

/-- The fixed enumeration of the six joints, in `X..V` wire-field order. -/
def Joint.all : List Joint :=
  [.theta1, .theta2, .theta3, .theta4, .theta5, .theta6]

/-! ## Line Reassembler (`readSerialData`, part_000 lines 361–386)

The loop body is: `buffer += value`, then repeatedly find the first
`'\n'` (`buffer.indexOf`), emit the prefix before it as a command and
drop the consumed prefix plus terminator.  `breakNewline` is
`indexOf`/`substring`: it returns the text before the first newline and
the text after it. -/

/-- Split a buffer at its first `'\n'`: `some (before, after)` when a
newline occurs, `none` otherwise (mirrors `buffer.indexOf('\n')` plus
the two `substring` calls). -/
def breakNewline : List Char → Option (List Char × List Char)
  | [] => none
  | c :: cs =>
    if c = '\n' then some ([], cs)
    else match breakNewline cs with
      | none => none
      | some (l, r) => some (c :: l, r)

/-- The `while ((newlineIndex = buffer.indexOf('\n')) !== -1)` loop of
`readSerialData`, with fuel bounding the iteration count; each iteration
removes at least one character, so `buffer.length` fuel always
suffices. -/
def processFuel : Nat → List Char → List (List Char) × List Char
  | 0, buf => ([], buf)
  | fuel + 1, buf =>
    match breakNewline buf with
    | none => ([], buf)
    | some (command, rest) =>
      let p := processFuel fuel rest
      (command :: p.1, p.2)

/-- One `read()` iteration of `readSerialData`: append the chunk to the
buffer, then extract every complete newline-terminated command; returns
the emitted commands and the leftover buffer. -/
def feed (buffer chunk : List Char) : List (List Char) × List Char :=
  let buf := buffer ++ chunk
  processFuel buf.length buf

/-- The whole read loop on a finite chunk sequence: feed each chunk in
order, collecting the commands emitted at each step. -/
def feedAll : List (List Char) → List Char → List (List Char) × List Char
  | [], buffer => ([], buffer)
  | c :: cs, buffer =>
    let p := feed buffer c
    let q := feedAll cs p.2
    (p.1 ++ q.1, q.2)

/-- Reference splitter: all maximal `'\n'`-free segments before each
newline, plus the trailing text after the last newline.  Used as the
structural-recursion face of `processFuel` in proofs. -/
def splitLines : List Char → List (List Char) × List Char
  | [] => ([], [])
  | c :: cs =>
    if c = '\n' then ([] :: (splitLines cs).1, (splitLines cs).2)
    else
      match splitLines cs with
      | ([], r) => ([], c :: r)
      | (l :: ls, r) => ((c :: l) :: ls, r)

theorem splitLines_no_newline {s : List Char} (h : '\n' ∉ s) :
    splitLines s = ([], s) := by
  induction s with
  | nil => rfl
  | cons c cs ih =>
    have hc : c ≠ '\n' := fun he => h (he ▸ List.mem_cons_self c cs)
    have hcs : '\n' ∉ cs := fun hm => h (List.mem_cons_of_mem c hm)
    simp only [splitLines, ih hcs, if_neg hc]

theorem splitLines_rem_no_newline (s : List Char) :
    '\n' ∉ (splitLines s).2 := by
  induction s with
  | nil => simp [splitLines]
  | cons c cs ih =>
    by_cases hc : c = '\n'
    · simpa [splitLines, hc] using ih
    · rcases hs : splitLines cs with ⟨ps, pr⟩
      rw [hs] at ih
      cases ps with
      | nil =>
        simp only [splitLines, if_neg hc, hs]
        intro hm
        rcases List.mem_cons.mp hm with he | hm2
        · exact hc he.symm
        · exact ih hm2
      | cons l ls => simpa [splitLines, if_neg hc, hs] using ih

theorem breakNewline_none {s : List Char} (h : breakNewline s = none) :
    '\n' ∉ s := by
  induction s with
  | nil => simp
  | cons c cs ih =>
    by_cases hc : c = '\n'
    · simp [breakNewline, hc] at h
    · simp only [breakNewline, if_neg hc] at h
      intro hm
      rcases List.mem_cons.mp hm with he | hm2
      · exact hc he.symm
      · cases hb : breakNewline cs with
        | none => exact ih hb hm2
        | some p => rw [hb] at h; cases h

theorem breakNewline_some {s l r : List Char}
    (h : breakNewline s = some (l, r)) :
    s = l ++ '\n' :: r ∧ '\n' ∉ l := by
  induction s generalizing l r with
  | nil => cases h
  | cons c cs ih =>
    by_cases hc : c = '\n'
    · subst hc
      rw [show breakNewline ('\n' :: cs) = some ([], cs) by
            simp [breakNewline]] at h
      cases h
      exact ⟨rfl, by simp⟩
    · simp only [breakNewline, if_neg hc] at h
      cases hb : breakNewline cs with
      | none => rw [hb] at h; cases h
      | some p =>
        obtain ⟨l', r'⟩ := p
        rw [hb] at h
        cases h
        obtain ⟨he, hn⟩ := ih hb
        constructor
        · rw [he]; rfl
        · intro hm
          rcases List.mem_cons.mp hm with hx | hx
          · exact hc hx.symm
          · exact hn hx

theorem splitLines_line_append {l : List Char} (hl : '\n' ∉ l)
    (r : List Char) :
    splitLines (l ++ '\n' :: r) =
      ((l :: (splitLines r).1 : List (List Char)), (splitLines r).2) := by
  induction l with
  | nil => simp [splitLines]
  | cons c cs ih =>
    have hc : c ≠ '\n' := fun he => hl (he ▸ List.mem_cons_self c cs)
    have hcs : '\n' ∉ cs := fun hm => hl (List.mem_cons_of_mem c hm)
    have ihv := ih hcs
    rw [List.cons_append, splitLines, if_neg hc, ihv]

theorem processFuel_eq_splitLines :
    ∀ (fuel : Nat) (s : List Char), s.length ≤ fuel →
      processFuel fuel s = splitLines s := by
  intro fuel
  induction fuel with
  | zero =>
    intro s hs
    have : s = [] := List.eq_nil_of_length_eq_zero (Nat.le_zero.mp hs)
    subst this; rfl
  | succ n ih =>
    intro s hs
    cases hb : breakNewline s with
    | none =>
      have := splitLines_no_newline (breakNewline_none hb)
      simp [processFuel, hb, this]
    | some p =>
      obtain ⟨l, r⟩ := p
      obtain ⟨he, hn⟩ := breakNewline_some hb
      have hr : r.length ≤ n := by
        subst he
        simp only [List.length_append, List.length_cons] at hs
        omega
      have hrec := ih r hr
      simp only [processFuel, hb, hrec]
      rw [he, splitLines_line_append hn]

theorem splitLines_append (a b : List Char) :
    splitLines (a ++ b) =
      ((splitLines a).1 ++ (splitLines ((splitLines a).2 ++ b)).1,
        (splitLines ((splitLines a).2 ++ b)).2) := by
  induction a with
  | nil => simp [splitLines]
  | cons c cs ih =>
    by_cases hc : c = '\n'
    · subst hc
      rw [List.cons_append]
      rw [show splitLines ('\n' :: (cs ++ b)) =
            ([] :: (splitLines (cs ++ b)).1, (splitLines (cs ++ b)).2) by
          simp [splitLines]]
      rw [show splitLines ('\n' :: cs) =
            ([] :: (splitLines cs).1, (splitLines cs).2) by simp [splitLines]]
      rw [ih]
      simp
    · rcases hs : splitLines cs with ⟨ps, pr⟩
      rcases hs2 : splitLines (pr ++ b) with ⟨qs, qr⟩
      have ih2 : splitLines (cs ++ b) = (ps ++ qs, qr) := by
        rw [ih, hs, hs2]
      rw [List.cons_append]
      cases ps with
      | nil =>
        have h1 : splitLines (c :: cs) = ([], c :: pr) := by
          simp only [splitLines, if_neg hc, hs]
        rw [h1]
        simp only [List.nil_append] at ih2 ⊢
        cases qs with
        | nil =>
          have h2 : splitLines (c :: (cs ++ b)) = ([], c :: qr) := by
            simp only [splitLines, if_neg hc, ih2]
          have h3 : splitLines (c :: (pr ++ b)) = ([], c :: qr) := by
            simp only [splitLines, if_neg hc, hs2]
          rw [h2, List.cons_append, h3]
        | cons q qs' =>
          have h2 : splitLines (c :: (cs ++ b)) = ((c :: q) :: qs', qr) := by
            simp only [splitLines, if_neg hc, ih2]
          have h3 : splitLines (c :: (pr ++ b)) = ((c :: q) :: qs', qr) := by
            simp only [splitLines, if_neg hc, hs2]
          rw [h2, List.cons_append, h3]
      | cons p ps' =>
        have h1 : splitLines (c :: cs) = ((c :: p) :: ps', pr) := by
          simp only [splitLines, if_neg hc, hs]
        have h2 : splitLines (c :: (cs ++ b)) = ((c :: p) :: (ps' ++ qs), qr) := by
          simp only [splitLines, if_neg hc, ih2, List.cons_append]
        rw [h1, h2, hs2]
        simp

theorem feed_eq_splitLines (buffer chunk : List Char) :
    feed buffer chunk = splitLines (buffer ++ chunk) :=
  processFuel_eq_splitLines _ _ le_rfl

theorem feedAll_eq_splitLines :
    ∀ (chunks : List (List Char)) (buffer : List Char), '\n' ∉ buffer →
      feedAll chunks buffer = splitLines (buffer ++ chunks.flatten) := by
  intro chunks
  induction chunks with
  | nil =>
    intro buffer hb
    simp [feedAll, splitLines_no_newline hb]
  | cons c cs ih =>
    intro buffer hb
    have h1 : feed buffer c = splitLines (buffer ++ c) :=
      feed_eq_splitLines buffer c
    have hrem : '\n' ∉ (splitLines (buffer ++ c)).2 :=
      splitLines_rem_no_newline _
    have h2 := ih (splitLines (buffer ++ c)).2 hrem
    have h3 := splitLines_append (buffer ++ c) cs.flatten
    simp only [feedAll, h1, h2]
    rw [List.flatten_cons, ← List.append_assoc, h3]

theorem splitLines_complete :
    ∀ (L : List (List Char)) (t : List Char),
      (∀ l ∈ L, '\n' ∉ l) → '\n' ∉ t →
      splitLines ((L.map (fun l => l ++ ['\n'])).flatten ++ t) = (L, t) := by
  intro L
  induction L with
  | nil =>
    intro t _ ht
    simpa using splitLines_no_newline ht
  | cons l L' ih =>
    intro t hL ht
    have hl : '\n' ∉ l := hL l (List.mem_cons_self l L')
    have hL' : ∀ x ∈ L', '\n' ∉ x := fun x hx => hL x (List.mem_cons_of_mem l hx)
    have heq : ((l :: L').map (fun x => x ++ ['\n'])).flatten ++ t =
        l ++ '\n' :: ((L'.map (fun x => x ++ ['\n'])).flatten ++ t) := by
      simp
    rw [heq, splitLines_line_append hl, ih t hL' ht]

/-- **C1.** For every finite sequence `L` of complete newline-terminated
lines and every way of splitting their concatenated text (followed by a
trailing partial line `t`) into chunks, feeding the chunks in order to
the reassembly loop of `readSerialData`, started with an empty buffer,
emits exactly the lines of `L` in order and retains exactly `t` in the
buffer; the trailing partial text is never emitted as a line. -/
theorem c1_reassembler_chunking_invariant
    (L : List (List Char)) (t : List Char) (chunks : List (List Char))
    (hL : ∀ l ∈ L, '\n' ∉ l) (ht : '\n' ∉ t)
    (hsplit : chunks.flatten = (L.map (fun l => l ++ ['\n'])).flatten ++ t) :
    feedAll chunks [] = (L, t) := by
  have h1 := feedAll_eq_splitLines chunks [] (by simp)
  rw [List.nil_append] at h1
  rw [h1, hsplit, splitLines_complete L t hL ht]

/-- Witness for C1: the two lines `"ab"`, `"c"` with trailing partial
`"d"`, delivered as chunks split mid-line, are reassembled intact. -/
theorem c1_reassembler_chunking_invariant_witness :
    (∀ l ∈ [['a', 'b'], ['c']], '\n' ∉ l) ∧ '\n' ∉ ['d'] ∧
      feedAll [['a'], ['b', '\n', 'c'], ['\n', 'd']] [] =
        ([['a', 'b'], ['c']], ['d']) :=
  ⟨by decide, by decide,
    c1_reassembler_chunking_invariant [['a', 'b'], ['c']] ['d']
      [['a'], ['b', '\n', 'c'], ['\n', 'd']]
      (by decide) (by decide) (by decide)⟩

/-! ## Command Codec: field extraction (`processCommand`, part_000 lines 318–359)

`processCommand` trims the line, checks the `G06` prefix, and extracts
each field with `trimmedCommand.match(/X([-+]?\d*\.?\d+)/)` (and
likewise for `Y Z W U V F`).  A non-global JavaScript regex `match`
returns the match at the earliest starting position; the capture group
is an optional sign, then greedily `\d*`, an optional `.`, and `\d+`.
`parseFloat` of the captured decimal literal is idealised as its exact
rational value. -/

/-- Numeric value of a decimal digit character. -/
def digitVal (c : Char) : ℕ := c.toNat - 48

/-- Value of a big-endian string of decimal digit characters. -/
def natOfDigits (l : List Char) : ℕ :=
  l.foldl (fun a c => 10 * a + digitVal c) 0

/-- The unsigned part of the capture group `\d*\.?\d+` (with
backtracking): longest digit run, then a fractional part when a `.`
followed by at least one digit is present; fails when no digit can be
consumed.  Returns the exact rational value `parseFloat` would yield. -/
def parseNumCore (s : List Char) : Option ℚ :=
  let d1 := s.takeWhile Char.isDigit
  match s.dropWhile Char.isDigit with
  | c :: s3 =>
    if c = '.' then
      let d2 := s3.takeWhile Char.isDigit
      if d2.isEmpty then
        if d1.isEmpty then none else some ((natOfDigits d1 : ℚ))
      else some ((natOfDigits d1 : ℚ) + (natOfDigits d2 : ℚ) / (10 : ℚ) ^ d2.length)
    else if d1.isEmpty then none else some ((natOfDigits d1 : ℚ))
  | [] => if d1.isEmpty then none else some ((natOfDigits d1 : ℚ))

/-- The full capture group `[-+]?\d*\.?\d+`: optional sign then the
unsigned part. -/
def parseNum (s : List Char) : Option ℚ :=
  match s with
  | [] => none
  | c :: t =>
    if c = '+' then parseNumCore t
    else if c = '-' then (parseNumCore t).map (fun q => -q)
    else parseNumCore s

/-- `line.match(/L(num)/)` for a field letter `L`: scan left to right
for the first position holding `L` immediately followed by a parsable
number, and return that number. -/
def firstFieldMatch (letter : Char) : List Char → Option ℚ
  | [] => none
  | c :: cs =>
    if c = letter then
      match parseNum cs with
      | some q => some q
      | none => firstFieldMatch letter cs
    else firstFieldMatch letter cs

/-- `command.trim()`: drop whitespace from both ends. -/
def trimChars (s : List Char) : List Char :=
  ((s.dropWhile Char.isWhitespace).reverse.dropWhile Char.isWhitespace).reverse

/-- Wire-field letter of each joint (`X..V` map to joints 1–6). -/
def letterOf : Joint → Char
  | .theta1 => 'X'
  | .theta2 => 'Y'
  | .theta3 => 'Z'
  | .theta4 => 'W'
  | .theta5 => 'U'
  | .theta6 => 'V'

/-- Wire-level decode of one joint field from a command line: the value
`parseFloat(match[1])` would produce, still in degrees. -/
def decodeWireTarget (command : List Char) (j : Joint) : Option ℚ :=
  firstFieldMatch (letterOf j) (trimChars command)

/-- The feed rate taken from the line: `fMatch ? parseFloat(fMatch[1])
: 500` — the default applies only when no `F`-followed-by-number occurs
anywhere in the line. -/
def decodeFeed (command : List Char) : ℚ :=
  (firstFieldMatch 'F' (trimChars command)).getD 500

/-- `trimmedCommand` is nonempty and starts with `G06`. -/
def isG06 (command : List Char) : Bool :=
  ['G', '0', '6'].isPrefixOf (trimChars command) && !(trimChars command).isEmpty

/-- `Object.keys(newJointStates).length > 0`: at least one joint field
was extracted. -/
def hasMotionField (command : List Char) : Bool :=
  Joint.all.any fun j => (decodeWireTarget command j).isSome

/-! ## Unit conversion (`degToRad` / `radToDeg`, part_000 lines 328 and 432) -/

noncomputable def degToRad (d : ℝ) : ℝ := d * Real.pi / 180

noncomputable def radToDeg (r : ℝ) : ℝ := r * 180 / Real.pi

/-- The sparse radian target built by `processCommand`: each extracted
degree value pushed through `degToRad`. -/
noncomputable def decodeTarget (command : List Char) : Joint → Option ℝ :=
  fun j => (decodeWireTarget command j).map fun q : ℚ => degToRad (Rat.cast q)

/-- `processCommand`: on a trimmed nonempty `G06` line with at least one
joint field, produce the sparse radian target and the feed rate;
otherwise no motion is started. -/
noncomputable def decodeMotion (command : List Char) :
    Option ((Joint → Option ℝ) × ℚ) :=
  if isG06 command && hasMotionField command then
    some (decodeTarget command, decodeFeed command)
  else none

/-! ## Command Codec: encoder (`sendJointStates`, part_000 lines 424–444)

The outbound command is
`G06 X{a} Y{b} Z{c} W{d} U{e} V{f} F500\n` where each value is
`radToDeg(jointStates.thetaK || 0).toFixed(1)`.  `toFixed(1)` per the
ECMAScript spec renders `-` for a negative argument and then the
integer nearest to `|x| * 10` (ties to the larger), as
`⌊n/10⌋ . (n mod 10)`. -/

/-- Decimal digit characters of `n` (`"0"` for zero). -/
def renderNat0 (n : ℕ) : List Char :=
  if n = 0 then ['0'] else ((Nat.digits 10 n).map Nat.digitChar).reverse

/-- Digits of the fixed-point value `n / 10`, one decimal place. -/
def renderFixed1 (n : ℕ) : List Char :=
  renderNat0 (n / 10) ++ '.' :: [Nat.digitChar (n % 10)]

/-- The integer `toFixed(1)` picks: `|x| * 10` rounded to nearest. -/
noncomputable def fixedNat (x : ℝ) : ℕ := (round (|x| * 10)).toNat

/-- `x.toFixed(1)` as a character string. -/
noncomputable def fmt1 (x : ℝ) : List Char :=
  (if x < 0 then ['-'] else []) ++ renderFixed1 (fixedNat x)

/-- The exact rational value denoted by the `toFixed(1)` rendering. -/
noncomputable def fixed1 (x : ℝ) : ℚ :=
  (if x < 0 then -1 else 1) * ((fixedNat x : ℚ) / 10)

/-- The one-decimal wire text of one joint: absent joints are encoded
as angle `0` (`jointStates.thetaK || 0`). -/
noncomputable def fieldChars (st : Joint → Option ℝ) (j : Joint) : List Char :=
  fmt1 (radToDeg ((st j).getD 0))

/-- The outbound `G06` command of `sendJointStates`, without its
terminating newline: all six axes in `X..V` order plus `F500`. -/
noncomputable def encodeBody (st : Joint → Option ℝ) : List Char :=
  ['G', '0', '6', ' ', 'X'] ++ fieldChars st .theta1
    ++ [' ', 'Y'] ++ fieldChars st .theta2
    ++ [' ', 'Z'] ++ fieldChars st .theta3
    ++ [' ', 'W'] ++ fieldChars st .theta4
    ++ [' ', 'U'] ++ fieldChars st .theta5
    ++ [' ', 'V'] ++ fieldChars st .theta6
    ++ [' ', 'F', '5', '0', '0']

/-- The full outbound line written to the port, newline-terminated. -/
noncomputable def encodeLine (st : Joint → Option ℝ) : List Char :=
  encodeBody st ++ ['\n']

/-! ## Trajectory Scheduler (`smoothMoveTo` / `animate`, part_000 lines 264–316) -/

/-- The motion bookkeeping of `SerialConnection`: the `isMoving` flag
plus the closure state of one `smoothMoveTo` call (`startStates`,
`targetStates`, `feedRate`, `startTime`, `duration`). -/
structure SchedState where
  isMoving : Bool
  startStates : Joint → ℝ
  targetStates : Joint → Option ℝ
  feedRate : ℚ
  startTime : ℝ
  duration : ℝ

/-- `Math.max(...Object.keys(targetStates).map(joint => Math.abs((targetRad
- startRad) * 180 / Math.PI)))`: the largest per-joint displacement in
degrees over the joints present in the target.  (`Math.max()` of an
empty list is `-Infinity` in JS; the base `0` below agrees with it on
every reachable call because all listed deltas are `≥ 0`, the caller
`processCommand` only passes nonempty targets, and for an empty target
both give duration `100` after the floor.) -/
noncomputable def maxAngleDiffDeg (startS : Joint → ℝ)
    (targetS : Joint → Option ℝ) : ℝ :=
  ((Joint.all.filter fun j => (targetS j).isSome).map
    fun j => |((targetS j).getD 0 - startS j) * 180 / Real.pi|).foldr max 0

/-- `duration = Math.max(100, (maxAngleDiffDeg / feedRate) * 60 * 1000)`. -/
noncomputable def durationOf (startS : Joint → ℝ) (targetS : Joint → Option ℝ)
    (feedRate : ℚ) : ℝ :=
  max 100 ((maxAngleDiffDeg startS targetS / (feedRate : ℝ)) * 60 * 1000)

/-- `smoothMoveTo(targetStates, feedRate)` at wall-clock time `now`:
rejected outright while `isMoving` (the state is untouched and nothing
is queued); otherwise capture the live joint states as `startStates`
and start the motion.  (`onDataReceived` is always wired by the page, so
only the `isMoving` guard is modelled.) -/
noncomputable def smoothMoveTo (st : SchedState) (jointStates : Joint → ℝ)
    (targetStates : Joint → Option ℝ) (feedRate : ℚ) (now : ℝ) : SchedState :=
  if st.isMoving then st
  else
    { isMoving := true
      startStates := jointStates
      targetStates := targetStates
      feedRate := feedRate
      startTime := now
      duration := durationOf jointStates targetStates feedRate }

/-- `progress = Math.min(elapsed / duration, 1)`. -/
noncomputable def progressAt (st : SchedState) (now : ℝ) : ℝ :=
  min ((now - st.startTime) / st.duration) 1

/-- The sparse `currentStates` object built by one `animate` frame:
`start + (target - start) * progress` for each joint present in the
target, nothing for the rest. -/
noncomputable def currentStates (st : SchedState) (now : ℝ) (j : Joint) :
    Option ℝ :=
  (st.targetStates j).map fun tgt =>
    st.startStates j + (tgt - st.startStates j) * progressAt st now

/-- The complete pose the consumer holds after `onDataReceived` merges
one frame into the live state (`handleSerialDataReceived` spreads the
sparse update over the previous pose). -/
noncomputable def mergedStates (st : SchedState) (now : ℝ) (live : Joint → ℝ)
    (j : Joint) : ℝ :=
  (currentStates st now j).getD (live j)

/-- Observable events of the animation loop: the per-frame state
emission, the completion signal (`setIsMoving(false)` plus the
"Movement completed" log), and the `setTimeout(sendOkResponse, 50)`
scheduling. -/
inductive AnimEvent where
  | frame (states : Joint → Option ℝ)
  | completedSignal
  | okScheduledAt (t : ℝ)

def AnimEvent.isCompletedSignal : AnimEvent → Bool
  | .completedSignal => true
  | _ => false

def AnimEvent.isOkScheduled : AnimEvent → Bool
  | .okScheduledAt _ => true
  | _ => false

/-- The `animate` callback run at each successive frame time: emit the
interpolated frame; while `progress < 1` re-arm for the next frame;
once `progress` reaches `1`, emit the completion signal, schedule the
`Ok` send 50 ms later, and stop (the callback is not re-armed, so later
frame times are never processed). -/
noncomputable def animateTrace (st : SchedState) : List ℝ → List AnimEvent
  | [] => []
  | t :: ts =>
    if progressAt st t < 1 then
      .frame (fun j => currentStates st t j) :: animateTrace st ts
    else
      [.frame (fun j => currentStates st t j), .completedSignal,
        .okScheduledAt (t + 50)]

/-! ## Connection Manager (`disconnectSerial` / `sendOkResponse`,
part_000 lines 388–422) -/

/-- The connection-owned resources: which handles are live
(`reader`, `writer`, `port` non-null) and the `isConnected` flag. -/
structure Conn where
  reader : Bool
  writer : Bool
  port : Bool
  isConnected : Bool
deriving DecidableEq, Repr

/-- Which of the three release calls (`reader.cancel()`,
`writer.close()`, `port.close()`) would throw. -/
structure FailSpec where
  readerFails : Bool
  writerFails : Bool
  portFails : Bool
deriving DecidableEq, Repr

def noFail : FailSpec := ⟨false, false, false⟩

/-- `disconnectSerial`: one `try` block cancels the reader, closes the
writer, closes the port and finally clears `isConnected`; the single
`catch` only logs, so the first throwing release aborts everything
after it, leaving the remaining resources and the `isConnected` flag as
they were. -/
def disconnectSerial (c : Conn) (f : FailSpec) : Conn :=
  if c.reader && f.readerFails then c
  else
    let c1 : Conn := { c with reader := false }
    if c1.writer && f.writerFails then c1
    else
      let c2 : Conn := { c1 with writer := false }
      if c2.port && f.portFails then c2
      else { c2 with port := false, isConnected := false }

/-- `sendOkResponse`: writes the literal line `Ok\n` unless the writer
is gone or the connection is closed, in which case it returns without
writing. -/
def sendOkResponse (c : Conn) : Option (List Char) :=
  if c.writer && c.isConnected then some ['O', 'k', '\n'] else none

/-- The state `disconnectSerial` touches: the connection resources and
(notably untouched) the scheduler state. -/
structure SysState where
  conn : Conn
  sched : SchedState

/-- `disconnectSerial` at system level: its body contains no
`setIsMoving` call and never cancels the animation frame loop, so the
scheduler component is carried over unchanged. -/
noncomputable def disconnectSys (s : SysState) (f : FailSpec) : SysState :=
  { s with conn := disconnectSerial s.conn f }

/-! ## Parser correctness on rendered numbers -/

theorem takeDrop_all_append (p : Char → Bool) (a : List Char) (b : Char)
    (t : List Char) (ha : ∀ c ∈ a, p c = true) (hb : p b = false) :
    (a ++ b :: t).takeWhile p = a ∧ (a ++ b :: t).dropWhile p = b :: t := by
  induction a with
  | nil => simp [List.takeWhile_cons, List.dropWhile_cons, hb]
  | cons c a' ih =>
    have hc : p c = true := ha c (List.mem_cons_self c a')
    have ha' : ∀ x ∈ a', p x = true := fun x hx => ha x (List.mem_cons_of_mem c hx)
    obtain ⟨h1, h2⟩ := ih ha'
    constructor
    · simp [List.takeWhile_cons, hc, h1]
    · simp [List.dropWhile_cons, hc, h2]

theorem natOfDigits_append_digit (l : List Char) (c : Char) :
    natOfDigits (l ++ [c]) = 10 * natOfDigits l + digitVal c := by
  simp [natOfDigits, List.foldl_append]

theorem digitVal_digitChar : ∀ d < 10, digitVal (Nat.digitChar d) = d := by decide

theorem digitChar_isDigit : ∀ d < 10, (Nat.digitChar d).isDigit = true := by decide

theorem natOfDigits_ofDigits :
    ∀ ds : List ℕ, (∀ d ∈ ds, d < 10) →
      natOfDigits ((ds.map Nat.digitChar).reverse) = Nat.ofDigits 10 ds := by
  intro ds
  induction ds with
  | nil => intro _; simp [natOfDigits, Nat.ofDigits]
  | cons d ds' ih =>
    intro h
    have hd : d < 10 := h d (List.mem_cons_self d ds')
    have h' : ∀ x ∈ ds', x < 10 := fun x hx => h x (List.mem_cons_of_mem d hx)
    have hsh : ((d :: ds').map Nat.digitChar).reverse =
        ((ds'.map Nat.digitChar).reverse) ++ [Nat.digitChar d] := by simp
    rw [hsh, natOfDigits_append_digit, ih h', digitVal_digitChar d hd,
      Nat.ofDigits_cons]
    omega

theorem renderNat0_spec (n : ℕ) :
    natOfDigits (renderNat0 n) = n ∧ renderNat0 n ≠ [] ∧
      ∀ c ∈ renderNat0 n, c.isDigit = true := by
  by_cases hn : n = 0
  · subst hn
    refine ⟨by decide, by decide, ?_⟩
    intro c hc
    rw [show renderNat0 0 = ['0'] from rfl] at hc
    rcases List.mem_singleton.mp hc with rfl
    decide
  · have hlt : ∀ d ∈ Nat.digits 10 n, d < 10 := fun d hd =>
      Nat.digits_lt_base (by norm_num) hd
    have hne : Nat.digits 10 n ≠ [] := Nat.digits_ne_nil_iff_ne_zero.mpr hn
    refine ⟨?_, ?_, ?_⟩
    · rw [renderNat0, if_neg hn, natOfDigits_ofDigits _ hlt,
        Nat.ofDigits_digits]
    · rw [renderNat0, if_neg hn]
      simpa using hne
    · intro c hc
      rw [renderNat0, if_neg hn] at hc
      rw [List.mem_reverse, List.mem_map] at hc
      obtain ⟨d, hd, rfl⟩ := hc
      exact digitChar_isDigit d (hlt d hd)

theorem parseNumCore_render (n : ℕ) (t : List Char) :
    parseNumCore (renderFixed1 n ++ ' ' :: t) = some ((n : ℚ) / 10) := by
  obtain ⟨hval, hne, hdig⟩ := renderNat0_spec (n / 10)
  have hmod : n % 10 < 10 := Nat.mod_lt _ (by norm_num)
  have hshape : renderFixed1 n ++ ' ' :: t =
      renderNat0 (n / 10) ++ '.' :: (Nat.digitChar (n % 10) :: ' ' :: t) := by
    simp [renderFixed1]
  have h1 := takeDrop_all_append Char.isDigit (renderNat0 (n / 10)) '.'
    (Nat.digitChar (n % 10) :: ' ' :: t) hdig (by decide)
  have h2a : (Nat.digitChar (n % 10) :: ' ' :: t).takeWhile Char.isDigit =
      [Nat.digitChar (n % 10)] := by
    have hd := digitChar_isDigit _ hmod
    have hsp : (' '.isDigit) = false := by decide
    simp [List.takeWhile_cons, hd, hsp]
  rw [hshape]
  simp only [parseNumCore, h1.1, h1.2, if_pos rfl, h2a]
  have hemp : ([Nat.digitChar (n % 10)] : List Char).isEmpty = false := rfl
  rw [hemp]
  simp only [Bool.false_eq_true, if_false, hval]
  have hone : natOfDigits [Nat.digitChar (n % 10)] = n % 10 := by
    have := digitVal_digitChar _ hmod
    simp [natOfDigits, this]
  rw [hone]
  have hnm : (10 : ℚ) * ((n / 10 : ℕ) : ℚ) + ((n % 10 : ℕ) : ℚ) = (n : ℚ) := by
    exact_mod_cast Nat.div_add_mod n 10
  simp only [Option.some.injEq, pow_one, List.length_cons, List.length_nil]
  field_simp
  linarith

theorem parseNum_fmt1 (x : ℝ) (t : List Char) :
    parseNum (fmt1 x ++ ' ' :: t) = some (fixed1 x) := by
  by_cases hx : x < 0
  · have hshape : fmt1 x ++ ' ' :: t =
        '-' :: (renderFixed1 (fixedNat x) ++ ' ' :: t) := by
      simp [fmt1, if_pos hx]
    rw [hshape]
    have hplus : ('-' : Char) ≠ '+' := by decide
    simp only [parseNum, if_neg hplus, if_pos rfl, parseNumCore_render]
    simp [fixed1, if_pos hx]
  · obtain ⟨hval, hne, hdig⟩ := renderNat0_spec (fixedNat x / 10)
    obtain ⟨c, rest, hcr⟩ := List.exists_cons_of_ne_nil hne
    have hcd : c.isDigit = true := hdig c (hcr ▸ List.mem_cons_self c rest)
    have hcp : c ≠ '+' := by
      intro h; rw [h] at hcd; exact absurd hcd (by decide)
    have hcm : c ≠ '-' := by
      intro h; rw [h] at hcd; exact absurd hcd (by decide)
    have hshape : fmt1 x ++ ' ' :: t =
        c :: (rest ++ '.' :: Nat.digitChar (fixedNat x % 10) :: ' ' :: t) := by
      simp [fmt1, if_neg hx, renderFixed1, hcr]
    have hback : c :: (rest ++ '.' :: Nat.digitChar (fixedNat x % 10) :: ' ' :: t) =
        renderFixed1 (fixedNat x) ++ ' ' :: t := by
      simp [renderFixed1, hcr]
    rw [hshape]
    simp only [parseNum, if_neg hcp, if_neg hcm]
    rw [hback, parseNumCore_render]
    simp [fixed1, if_neg hx]

/-- Character class produced by `toFixed(1)`: digits, the decimal point
and the minus sign. -/
def isNumChar (c : Char) : Bool := c.isDigit || c == '.' || c == '-'

theorem fmt1_chars (x : ℝ) : ∀ c ∈ fmt1 x, isNumChar c = true := by
  intro c hc
  obtain ⟨_, _, hdig⟩ := renderNat0_spec (fixedNat x / 10)
  have hmod : fixedNat x % 10 < 10 := Nat.mod_lt _ (by norm_num)
  rw [fmt1] at hc
  rcases List.mem_append.mp hc with hs | hr
  · have : c = '-' := by
      by_cases hx : x < 0
      · rw [if_pos hx] at hs
        exact List.mem_singleton.mp hs
      · rw [if_neg hx] at hs
        cases hs
    rw [this]; decide
  · rw [renderFixed1] at hr
    rcases List.mem_append.mp hr with h1 | h2
    · simp [isNumChar, hdig c h1]
    · rcases List.mem_cons.mp h2 with rfl | h3
      · decide
      · rcases List.mem_singleton.mp h3 with rfl
        simp [isNumChar, digitChar_isDigit _ hmod]

theorem isNumChar_ne {c L : Char} (h : isNumChar c = true)
    (hL : L.isDigit = false) (hLd : L ≠ '.') (hLm : L ≠ '-') : c ≠ L := by
  intro he
  subst he
  simp only [isNumChar, hL, Bool.false_or, Bool.or_eq_true, beq_iff_eq] at h
  rcases h with h | h
  · exact hLd h
  · exact hLm h

theorem fieldChars_ne (st : Joint → Option ℝ) (j : Joint) {L : Char}
    (hL : L.isDigit = false) (hLd : L ≠ '.') (hLm : L ≠ '-') :
    ∀ c ∈ fieldChars st j, c ≠ L := fun c hc =>
  isNumChar_ne (fmt1_chars _ c hc) hL hLd hLm

theorem firstFieldMatch_skip {letter : Char} {a : List Char}
    (h : ∀ c ∈ a, c ≠ letter) (rest : List Char) :
    firstFieldMatch letter (a ++ rest) = firstFieldMatch letter rest := by
  induction a with
  | nil => rfl
  | cons c a' ih =>
    have hc : c ≠ letter := h c (List.mem_cons_self c a')
    have h' : ∀ x ∈ a', x ≠ letter := fun x hx => h x (List.mem_cons_of_mem c hx)
    rw [List.cons_append]
    simp only [firstFieldMatch, if_neg hc]
    exact ih h'

theorem firstFieldMatch_hit {letter : Char} {body : List Char} {q : ℚ}
    (h : parseNum body = some q) :
    firstFieldMatch letter (letter :: body) = some q := by
  simp [firstFieldMatch, h]

theorem trimChars_eq_self {c d : Char} (a : List Char)
    (hc : c.isWhitespace = false) (hd : d.isWhitespace = false) :
    trimChars (c :: (a ++ [d])) = c :: (a ++ [d]) := by
  have h1 : (c :: (a ++ [d])).dropWhile Char.isWhitespace = c :: (a ++ [d]) := by
    simp [List.dropWhile_cons, hc]
  have h2 : (c :: (a ++ [d])).reverse = d :: (a.reverse ++ [c]) := by simp
  have h3 : (d :: (a.reverse ++ [c])).dropWhile Char.isWhitespace =
      d :: (a.reverse ++ [c]) := by
    simp [List.dropWhile_cons, hd]
  rw [trimChars, h1, h2, h3]
  simp

theorem trim_encodeBody (st : Joint → Option ℝ) :
    trimChars (encodeBody st) = encodeBody st := by
  have hsh : encodeBody st = 'G' ::
      ((['0', '6', ' ', 'X'] ++ fieldChars st .theta1
        ++ [' ', 'Y'] ++ fieldChars st .theta2
        ++ [' ', 'Z'] ++ fieldChars st .theta3
        ++ [' ', 'W'] ++ fieldChars st .theta4
        ++ [' ', 'U'] ++ fieldChars st .theta5
        ++ [' ', 'V'] ++ fieldChars st .theta6
        ++ [' ', 'F', '5', '0']) ++ ['0']) := by
    simp [encodeBody]
  rw [hsh, trimChars_eq_self _ (by decide) (by decide)]

theorem parseNum_fieldChars (st : Joint → Option ℝ) (j : Joint) (t : List Char) :
    parseNum (fieldChars st j ++ ' ' :: t) =
      some (fixed1 (radToDeg ((st j).getD 0))) :=
  parseNum_fmt1 _ _

theorem ffm_X (st : Joint → Option ℝ) :
    firstFieldMatch 'X' (encodeBody st) =
      some (fixed1 (radToDeg ((st .theta1).getD 0))) := by
  have hsh : encodeBody st =
      ['G', '0', '6', ' '] ++ ('X' :: (fieldChars st .theta1 ++ ' ' ::
        ('Y' :: (fieldChars st .theta2 ++ ' ' ::
        ('Z' :: (fieldChars st .theta3 ++ ' ' ::
        ('W' :: (fieldChars st .theta4 ++ ' ' ::
        ('U' :: (fieldChars st .theta5 ++ ' ' ::
        ('V' :: (fieldChars st .theta6 ++ ' ' ::
        ['F', '5', '0', '0'])))))))))))) := by
    simp [encodeBody]
  rw [hsh, firstFieldMatch_skip (by intro c hc; fin_cases hc <;> decide),
    firstFieldMatch_hit (parseNum_fieldChars _ _ _)]

theorem ffm_Y (st : Joint → Option ℝ) :
    firstFieldMatch 'Y' (encodeBody st) =
      some (fixed1 (radToDeg ((st .theta2).getD 0))) := by
  have hsh : encodeBody st =
      ['G', '0', '6', ' ', 'X'] ++ (fieldChars st .theta1 ++ ([' '] ++
        ('Y' :: (fieldChars st .theta2 ++ ' ' ::
        ('Z' :: (fieldChars st .theta3 ++ ' ' ::
        ('W' :: (fieldChars st .theta4 ++ ' ' ::
        ('U' :: (fieldChars st .theta5 ++ ' ' ::
        ('V' :: (fieldChars st .theta6 ++ ' ' ::
        ['F', '5', '0', '0'])))))))))))) := by
    simp [encodeBody]
  rw [hsh, firstFieldMatch_skip (by intro c hc; fin_cases hc <;> decide),
    firstFieldMatch_skip (fieldChars_ne st .theta1 (by decide) (by decide) (by decide)),
    firstFieldMatch_skip (by intro c hc; fin_cases hc <;> decide),
    firstFieldMatch_hit (parseNum_fieldChars _ _ _)]

theorem ffm_Z (st : Joint → Option ℝ) :
    firstFieldMatch 'Z' (encodeBody st) =
      some (fixed1 (radToDeg ((st .theta3).getD 0))) := by
  have hsh : encodeBody st =
      ['G', '0', '6', ' ', 'X'] ++ (fieldChars st .theta1 ++ ([' ', 'Y'] ++
        (fieldChars st .theta2 ++ ([' '] ++
        ('Z' :: (fieldChars st .theta3 ++ ' ' ::
        ('W' :: (fieldChars st .theta4 ++ ' ' ::
        ('U' :: (fieldChars st .theta5 ++ ' ' ::
        ('V' :: (fieldChars st .theta6 ++ ' ' ::
        ['F', '5', '0', '0'])))))))))))) := by
    simp [encodeBody]
  rw [hsh, firstFieldMatch_skip (by intro c hc; fin_cases hc <;> decide),
    firstFieldMatch_skip (fieldChars_ne st .theta1 (by decide) (by decide) (by decide)),
    firstFieldMatch_skip (by intro c hc; fin_cases hc <;> decide),
    firstFieldMatch_skip (fieldChars_ne st .theta2 (by decide) (by decide) (by decide)),
    firstFieldMatch_skip (by intro c hc; fin_cases hc <;> decide),
    firstFieldMatch_hit (parseNum_fieldChars _ _ _)]

theorem ffm_W (st : Joint → Option ℝ) :
    firstFieldMatch 'W' (encodeBody st) =
      some (fixed1 (radToDeg ((st .theta4).getD 0))) := by
  have hsh : encodeBody st =
      ['G', '0', '6', ' ', 'X'] ++ (fieldChars st .theta1 ++ ([' ', 'Y'] ++
        (fieldChars st .theta2 ++ ([' ', 'Z'] ++
        (fieldChars st .theta3 ++ ([' '] ++
        ('W' :: (fieldChars st .theta4 ++ ' ' ::
        ('U' :: (fieldChars st .theta5 ++ ' ' ::
        ('V' :: (fieldChars st .theta6 ++ ' ' ::
        ['F', '5', '0', '0'])))))))))))) := by
    simp [encodeBody]
  rw [hsh, firstFieldMatch_skip (by intro c hc; fin_cases hc <;> decide),
    firstFieldMatch_skip (fieldChars_ne st .theta1 (by decide) (by decide) (by decide)),
    firstFieldMatch_skip (by intro c hc; fin_cases hc <;> decide),
    firstFieldMatch_skip (fieldChars_ne st .theta2 (by decide) (by decide) (by decide)),
    firstFieldMatch_skip (by intro c hc; fin_cases hc <;> decide),
    firstFieldMatch_skip (fieldChars_ne st .theta3 (by decide) (by decide) (by decide)),
    firstFieldMatch_skip (by intro c hc; fin_cases hc <;> decide),
    firstFieldMatch_hit (parseNum_fieldChars _ _ _)]

theorem ffm_U (st : Joint → Option ℝ) :
    firstFieldMatch 'U' (encodeBody st) =
      some (fixed1 (radToDeg ((st .theta5).getD 0))) := by
  have hsh : encodeBody st =
      ['G', '0', '6', ' ', 'X'] ++ (fieldChars st .theta1 ++ ([' ', 'Y'] ++
        (fieldChars st .theta2 ++ ([' ', 'Z'] ++
        (fieldChars st .theta3 ++ ([' ', 'W'] ++
        (fieldChars st .theta4 ++ ([' '] ++
        ('U' :: (fieldChars st .theta5 ++ ' ' ::
        ('V' :: (fieldChars st .theta6 ++ ' ' ::
        ['F', '5', '0', '0'])))))))))))) := by
    simp [encodeBody]
  rw [hsh, firstFieldMatch_skip (by intro c hc; fin_cases hc <;> decide),
    firstFieldMatch_skip (fieldChars_ne st .theta1 (by decide) (by decide) (by decide)),
    firstFieldMatch_skip (by intro c hc; fin_cases hc <;> decide),
    firstFieldMatch_skip (fieldChars_ne st .theta2 (by decide) (by decide) (by decide)),
    firstFieldMatch_skip (by intro c hc; fin_cases hc <;> decide),
    firstFieldMatch_skip (fieldChars_ne st .theta3 (by decide) (by decide) (by decide)),
    firstFieldMatch_skip (by intro c hc; fin_cases hc <;> decide),
    firstFieldMatch_skip (fieldChars_ne st .theta4 (by decide) (by decide) (by decide)),
    firstFieldMatch_skip (by intro c hc; fin_cases hc <;> decide),
    firstFieldMatch_hit (parseNum_fieldChars _ _ _)]

theorem ffm_V (st : Joint → Option ℝ) :
    firstFieldMatch 'V' (encodeBody st) =
      some (fixed1 (radToDeg ((st .theta6).getD 0))) := by
  have hsh : encodeBody st =
      ['G', '0', '6', ' ', 'X'] ++ (fieldChars st .theta1 ++ ([' ', 'Y'] ++
        (fieldChars st .theta2 ++ ([' ', 'Z'] ++
        (fieldChars st .theta3 ++ ([' ', 'W'] ++
        (fieldChars st .theta4 ++ ([' ', 'U'] ++
        (fieldChars st .theta5 ++ ([' '] ++
        ('V' :: (fieldChars st .theta6 ++ ' ' ::
        ['F', '5', '0', '0'])))))))))))) := by
    simp [encodeBody]
  rw [hsh, firstFieldMatch_skip (by intro c hc; fin_cases hc <;> decide),
    firstFieldMatch_skip (fieldChars_ne st .theta1 (by decide) (by decide) (by decide)),
    firstFieldMatch_skip (by intro c hc; fin_cases hc <;> decide),
    firstFieldMatch_skip (fieldChars_ne st .theta2 (by decide) (by decide) (by decide)),
    firstFieldMatch_skip (by intro c hc; fin_cases hc <;> decide),
    firstFieldMatch_skip (fieldChars_ne st .theta3 (by decide) (by decide) (by decide)),
    firstFieldMatch_skip (by intro c hc; fin_cases hc <;> decide),
    firstFieldMatch_skip (fieldChars_ne st .theta4 (by decide) (by decide) (by decide)),
    firstFieldMatch_skip (by intro c hc; fin_cases hc <;> decide),
    firstFieldMatch_skip (fieldChars_ne st .theta5 (by decide) (by decide) (by decide)),
    firstFieldMatch_skip (by intro c hc; fin_cases hc <;> decide),
    firstFieldMatch_hit (parseNum_fieldChars _ _ _)]

theorem ffm_F (st : Joint → Option ℝ) :
    firstFieldMatch 'F' (encodeBody st) = some 500 := by
  have hsh : encodeBody st =
      ['G', '0', '6', ' ', 'X'] ++ (fieldChars st .theta1 ++ ([' ', 'Y'] ++
        (fieldChars st .theta2 ++ ([' ', 'Z'] ++
        (fieldChars st .theta3 ++ ([' ', 'W'] ++
        (fieldChars st .theta4 ++ ([' ', 'U'] ++
        (fieldChars st .theta5 ++ ([' ', 'V'] ++
        (fieldChars st .theta6 ++ ([' '] ++
        ('F' :: ['5', '0', '0']))))))))))))) := by
    simp [encodeBody]
  rw [hsh, firstFieldMatch_skip (by intro c hc; fin_cases hc <;> decide),
    firstFieldMatch_skip (fieldChars_ne st .theta1 (by decide) (by decide) (by decide)),
    firstFieldMatch_skip (by intro c hc; fin_cases hc <;> decide),
    firstFieldMatch_skip (fieldChars_ne st .theta2 (by decide) (by decide) (by decide)),
    firstFieldMatch_skip (by intro c hc; fin_cases hc <;> decide),
    firstFieldMatch_skip (fieldChars_ne st .theta3 (by decide) (by decide) (by decide)),
    firstFieldMatch_skip (by intro c hc; fin_cases hc <;> decide),
    firstFieldMatch_skip (fieldChars_ne st .theta4 (by decide) (by decide) (by decide)),
    firstFieldMatch_skip (by intro c hc; fin_cases hc <;> decide),
    firstFieldMatch_skip (fieldChars_ne st .theta5 (by decide) (by decide) (by decide)),
    firstFieldMatch_skip (by intro c hc; fin_cases hc <;> decide),
    firstFieldMatch_skip (fieldChars_ne st .theta6 (by decide) (by decide) (by decide)),
    firstFieldMatch_skip (by intro c hc; fin_cases hc <;> decide),
    firstFieldMatch_hit (show parseNum ['5', '0', '0'] = some (500 : ℚ) by decide)]

theorem decodeWireTarget_encode (st : Joint → Option ℝ) (j : Joint) :
    decodeWireTarget (encodeBody st) j =
      some (fixed1 (radToDeg ((st j).getD 0))) := by
  cases j
  · rw [decodeWireTarget, trim_encodeBody]; exact ffm_X st
  · rw [decodeWireTarget, trim_encodeBody]; exact ffm_Y st
  · rw [decodeWireTarget, trim_encodeBody]; exact ffm_Z st
  · rw [decodeWireTarget, trim_encodeBody]; exact ffm_W st
  · rw [decodeWireTarget, trim_encodeBody]; exact ffm_U st
  · rw [decodeWireTarget, trim_encodeBody]; exact ffm_V st

theorem decodeFeed_encode (st : Joint → Option ℝ) :
    decodeFeed (encodeBody st) = 500 := by
  rw [decodeFeed, trim_encodeBody, ffm_F]
  rfl

theorem radToDeg_degToRad (d : ℝ) : radToDeg (degToRad d) = d := by
  rw [radToDeg, degToRad]
  field_simp

theorem abs_fixed1_sub (x : ℝ) : |((fixed1 x : ℚ) : ℝ) - x| ≤ 1 / 10 := by
  have hnn : (0 : ℝ) ≤ |x| * 10 := by positivity
  have hr0 : (0 : ℤ) ≤ round (|x| * 10) := by
    rw [round_eq]
    apply Int.le_floor.mpr
    push_cast
    linarith
  have hb : abs (|x| * 10 - ((round (|x| * 10) : ℤ) : ℝ)) ≤ 1 / 2 :=
    abs_sub_round _
  have hnat : ((fixedNat x : ℕ) : ℝ) = ((round (|x| * 10) : ℤ) : ℝ) := by
    rw [fixedNat]
    exact_mod_cast congrArg (fun z : ℤ => (z : ℝ)) (Int.toNat_of_nonneg hr0)
  have hcast : ((fixed1 x : ℚ) : ℝ) =
      (if x < 0 then (-1 : ℝ) else 1) * ((round (|x| * 10) : ℤ) : ℝ) / 10 := by
    by_cases hx : x < 0
    · rw [fixed1, if_pos hx, if_pos hx]
      push_cast
      rw [hnat]
      ring
    · rw [fixed1, if_neg hx, if_neg hx]
      push_cast
      rw [hnat]
      ring
  rw [hcast, abs_le]
  rw [abs_le] at hb
  obtain ⟨h1, h2⟩ := hb
  by_cases hx : x < 0
  · rw [if_pos hx]
    rw [abs_of_neg hx] at h1 h2 ⊢
    constructor <;> linarith
  · rw [if_neg hx]
    rw [abs_of_nonneg (not_lt.mp hx)] at h1 h2 ⊢
    constructor <;> linarith

theorem isG06_encode (st : Joint → Option ℝ) : isG06 (encodeBody st) = true := by
  rw [isG06, trim_encodeBody]
  have hsh : encodeBody st = 'G' :: '0' :: '6' :: (' ' :: 'X' ::
      (fieldChars st .theta1 ++ [' ', 'Y'] ++ fieldChars st .theta2
        ++ [' ', 'Z'] ++ fieldChars st .theta3
        ++ [' ', 'W'] ++ fieldChars st .theta4
        ++ [' ', 'U'] ++ fieldChars st .theta5
        ++ [' ', 'V'] ++ fieldChars st .theta6
        ++ [' ', 'F', '5', '0', '0'])) := by
    simp [encodeBody]
  rw [hsh]
  simp [List.isPrefixOf]

theorem hasMotionField_encode (st : Joint → Option ℝ) :
    hasMotionField (encodeBody st) = true := by
  rw [hasMotionField]
  have h1 := decodeWireTarget_encode st .theta1
  simp [Joint.all, h1]

/-- **C2.** Decoding the line produced by the encoder (`sendJointStates`,
which formats every joint to one decimal place and appends `F500`)
always yields an accepted motion command whose target carries a value
for every joint, and on each joint the decoded value agrees with the
encoded state to within `0.1` wire-units (degrees); the decoded feed
rate is the encoded `500 > 0`.  (The source encoder hard-codes the feed
rate `500`, so the round-trip property is independent of any feed-rate
argument.) -/
theorem c2_encode_decode_roundtrip (v : Joint → ℝ) :
    ∃ tgt : Joint → Option ℝ,
      decodeMotion (encodeBody (fun j => some (v j))) = some (tgt, 500) ∧
      (0 : ℚ) < 500 ∧
      ∀ j : Joint, ∃ w : ℝ, tgt j = some w ∧
        |radToDeg w - radToDeg (v j)| ≤ 1 / 10 := by
  refine ⟨decodeTarget (encodeBody (fun j => some (v j))), ?_, by norm_num, ?_⟩
  · rw [decodeMotion, isG06_encode, hasMotionField_encode,
      decodeFeed_encode]
    rfl
  · intro j
    refine ⟨degToRad ((fixed1 (radToDeg (v j)) : ℚ) : ℝ), ?_, ?_⟩
    · have h1 := decodeWireTarget_encode (fun j => some (v j)) j
      rw [decodeTarget, h1]
      rfl
    · rw [radToDeg_degToRad]
      exact abs_fixed1_sub (radToDeg (v j))

/-- **C10.** The encoder is total over partial joint states: an absent
joint is substituted with angle `0` (`jointStates.thetaK || 0`), whose
wire text is exactly `0.0`, and the emitted line still decodes as a
full six-field motion command in which the absent joint carries wire
value `0`. -/
theorem c10_encode_totality_sparse (st : Joint → Option ℝ) (j : Joint)
    (h : st j = none) :
    fieldChars st j = ['0', '.', '0'] ∧
    decodeWireTarget (encodeBody st) j = some 0 ∧
    decodeMotion (encodeBody st) = some (decodeTarget (encodeBody st), 500) := by
  have hz : (st j).getD 0 = (0 : ℝ) := by rw [h]; rfl
  have hrz : radToDeg ((st j).getD 0) = 0 := by
    rw [hz, radToDeg]
    simp
  have hfz : fixedNat (0 : ℝ) = 0 := by
    rw [fixedNat]
    norm_num
  refine ⟨?_, ?_, ?_⟩
  · rw [fieldChars, hrz, fmt1, if_neg (by norm_num), hfz]
    rfl
  · rw [decodeWireTarget_encode, hrz]
    rw [fixed1, if_neg (by norm_num), hfz]
    norm_num
  · rw [decodeMotion, isG06_encode, hasMotionField_encode, decodeFeed_encode]
    rfl

/-- Witness for C10: a state with every joint absent encodes with all
six fields reading `0.0`. -/
theorem c10_encode_totality_sparse_witness :
    (fun _ : Joint => (none : Option ℝ)) Joint.theta1 = none ∧
      fieldChars (fun _ => none) Joint.theta1 = ['0', '.', '0'] :=
  ⟨rfl, (c10_encode_totality_sparse (fun _ => none) Joint.theta1 rfl).1⟩

/-! ## Trajectory and connection properties -/

/-- A scheduler state with a motion in flight (for concrete instances). -/
noncomputable def activeExample : SchedState :=
  { isMoving := true, startStates := fun _ => 0, targetStates := fun _ => none
    feedRate := 500, startTime := 0, duration := 100 }

/-- An idle scheduler state (for concrete instances). -/
noncomputable def idleExample : SchedState :=
  { isMoving := false, startStates := fun _ => 0, targetStates := fun _ => none
    feedRate := 500, startTime := 0, duration := 100 }

/-- The spec's worked scenario target: `theta1 ↦ 90°`, nothing else. -/
noncomputable def scenarioTarget : Joint → Option ℝ
  | .theta1 => some (degToRad 90)
  | _ => none

/-- The trajectory started from pose zero toward `scenarioTarget` at
feed rate `500`, accepted at time `0`. -/
noncomputable def scenarioState : SchedState :=
  smoothMoveTo idleExample (fun _ => 0) scenarioTarget 500 0

theorem maxAngleDiffDeg_scenario :
    maxAngleDiffDeg (fun _ => 0) scenarioTarget = 90 := by
  rw [maxAngleDiffDeg]
  have hfil : (Joint.all.filter fun j => (scenarioTarget j).isSome) =
      [Joint.theta1] := rfl
  rw [hfil]
  have h1 : (scenarioTarget Joint.theta1).getD 0 = degToRad 90 := rfl
  simp only [List.map_cons, List.map_nil, List.foldr_cons, List.foldr_nil, h1]
  have h3 : (degToRad 90 - (0 : ℝ)) * 180 / Real.pi = 90 := by
    rw [sub_zero, degToRad]
    field_simp
  rw [h3]
  norm_num

/-- **C5.** A `MotionCommand` arriving while a trajectory is active is
rejected outright: `smoothMoveTo` returns without touching the state,
so the in-flight trajectory's start, target, feed rate and duration are
unchanged and nothing is queued. -/
theorem c5_reject_while_active (st : SchedState) (js : Joint → ℝ)
    (tg : Joint → Option ℝ) (fr : ℚ) (now : ℝ) (h : st.isMoving = true) :
    smoothMoveTo st js tg fr now = st := by
  rw [smoothMoveTo, if_pos h]

/-- Witness for C5: a concrete in-flight trajectory survives a second
command untouched. -/
theorem c5_reject_while_active_witness :
    smoothMoveTo activeExample (fun _ => 1) (fun _ => some 2) 250 7 =
      activeExample :=
  c5_reject_while_active activeExample _ _ _ _ rfl

/-- **C3.** Every accepted motion gets duration
`max 100 ((maxDelta / feedRate) * 60000)` milliseconds, and in the
spec's worked scenario (start all zero, target `theta1 = 90°`, feed
rate `500°/min`) the duration is `10800` ms; at time `5400` the
progress is `0.5`, `theta1` reads exactly `45°`, and every joint absent
from the target still reads `0`. -/
theorem c3_duration_formula_and_scenario :
    (∀ (js0 : Joint → ℝ) (tg0 : Joint → Option ℝ) (fr0 : ℚ) (t0 d0 : ℝ)
        (live : Joint → ℝ) (tgt : Joint → Option ℝ) (fr : ℚ) (now : ℝ),
      (smoothMoveTo ⟨false, js0, tg0, fr0, t0, d0⟩ live tgt fr now).duration =
        max 100 (maxAngleDiffDeg live tgt / (fr : ℝ) * 60000)) ∧
    scenarioState.duration = 10800 ∧
    progressAt scenarioState 5400 = 1 / 2 ∧
    mergedStates scenarioState 5400 (fun _ => 0) .theta1 = degToRad 45 ∧
    mergedStates scenarioState 5400 (fun _ => 0) .theta2 = 0 ∧
    mergedStates scenarioState 5400 (fun _ => 0) .theta3 = 0 ∧
    mergedStates scenarioState 5400 (fun _ => 0) .theta4 = 0 ∧
    mergedStates scenarioState 5400 (fun _ => 0) .theta5 = 0 ∧
    mergedStates scenarioState 5400 (fun _ => 0) .theta6 = 0 := by
  have hsc : scenarioState =
      { isMoving := true, startStates := fun _ => 0
        targetStates := scenarioTarget, feedRate := 500, startTime := 0
        duration := durationOf (fun _ => 0) scenarioTarget 500 } := by
    rw [scenarioState, smoothMoveTo, if_neg (by simp [idleExample])]
  have hdur : durationOf (fun _ => 0) scenarioTarget 500 = 10800 := by
    rw [durationOf, maxAngleDiffDeg_scenario]
    norm_num
  have hprog : progressAt scenarioState 5400 = 1 / 2 := by
    rw [progressAt, hsc, hdur]
    norm_num [min_def]
  have habs : ∀ j : Joint, scenarioState.targetStates j = none →
      mergedStates scenarioState 5400 (fun _ => 0) j = 0 := by
    intro j hj
    rw [mergedStates, currentStates, hj]
    rfl
  refine ⟨?_, ?_, hprog, ?_, ?_, ?_, ?_, ?_, ?_⟩
  · intro js0 tg0 fr0 t0 d0 live tgt fr now
    rw [show (smoothMoveTo ⟨false, js0, tg0, fr0, t0, d0⟩ live tgt fr now).duration
        = durationOf live tgt fr from rfl, durationOf]
    ring_nf
  · rw [hsc, hdur]
  · have h1 : scenarioState.targetStates Joint.theta1 = some (degToRad 90) := by
      rw [hsc]; rfl
    have h2 : scenarioState.startStates Joint.theta1 = 0 := by rw [hsc]
    rw [mergedStates, currentStates, h1]
    show scenarioState.startStates Joint.theta1 +
        (degToRad 90 - scenarioState.startStates Joint.theta1) *
          progressAt scenarioState 5400 = degToRad 45
    rw [h2, hprog, degToRad, degToRad]
    ring
  · exact habs .theta2 (by rw [hsc]; rfl)
  · exact habs .theta3 (by rw [hsc]; rfl)
  · exact habs .theta4 (by rw [hsc]; rfl)
  · exact habs .theta5 (by rw [hsc]; rfl)
  · exact habs .theta6 (by rw [hsc]; rfl)

theorem animateTrace_complete (st : SchedState) :
    ∀ ticks : List ℝ, (∃ t ∈ ticks, ¬ progressAt st t < 1) →
      ((animateTrace st ticks).filter AnimEvent.isCompletedSignal).length = 1 ∧
      ((animateTrace st ticks).filter AnimEvent.isOkScheduled).length = 1 ∧
      ∀ u : ℝ, AnimEvent.okScheduledAt u ∈ animateTrace st ticks →
        ∃ tc ∈ ticks, ¬ progressAt st tc < 1 ∧ u = tc + 50 := by
  intro ticks
  induction ticks with
  | nil => rintro ⟨t, ht, _⟩; cases ht
  | cons t ts ih =>
    rintro ⟨t0, ht0, hp0⟩
    by_cases hp : progressAt st t < 1
    · have heq : animateTrace st (t :: ts) =
          .frame (fun j => currentStates st t j) :: animateTrace st ts := by
        rw [animateTrace, if_pos hp]
      have ht0' : t0 ∈ ts := by
        rcases List.mem_cons.mp ht0 with rfl | h
        · exact absurd hp hp0
        · exact h
      obtain ⟨h1, h2, h3⟩ := ih ⟨t0, ht0', hp0⟩
      refine ⟨?_, ?_, ?_⟩
      · rw [heq, List.filter_cons]
        simpa [AnimEvent.isCompletedSignal] using h1
      · rw [heq, List.filter_cons]
        simpa [AnimEvent.isOkScheduled] using h2
      · intro u hu
        rw [heq] at hu
        rcases List.mem_cons.mp hu with he | hu2
        · cases he
        · obtain ⟨tc, htc, h4, h5⟩ := h3 u hu2
          exact ⟨tc, List.mem_cons_of_mem _ htc, h4, h5⟩
    · have heq : animateTrace st (t :: ts) =
          [.frame (fun j => currentStates st t j), .completedSignal,
            .okScheduledAt (t + 50)] := by
        rw [animateTrace, if_neg hp]
      refine ⟨?_, ?_, ?_⟩
      · rw [heq]
        rfl
      · rw [heq]
        rfl
      · intro u hu
        rw [heq] at hu
        simp only [List.mem_cons, List.not_mem_nil, or_false] at hu
        rcases hu with he | he | he
        · cases he
        · cases he
        · cases he
          exact ⟨t, List.mem_cons_self _ _, hp, rfl⟩

/-- **C4.** If the animation loop reaches a frame with `progress ≥ 1`,
its event trace holds exactly one completion signal and exactly one
`Ok` send scheduling, the latter 50 ms after the completing frame; and
with the writer live and the connection open, the scheduled
`sendOkResponse` writes exactly the literal line `Ok\n`. -/
theorem c4_exactly_one_ack (st : SchedState) (ticks : List ℝ) (c : Conn)
    (hdone : ∃ t ∈ ticks, ¬ progressAt st t < 1)
    (hw : c.writer = true) (hconn : c.isConnected = true) :
    ((animateTrace st ticks).filter AnimEvent.isCompletedSignal).length = 1 ∧
    ((animateTrace st ticks).filter AnimEvent.isOkScheduled).length = 1 ∧
    (∀ u : ℝ, AnimEvent.okScheduledAt u ∈ animateTrace st ticks →
      ∃ tc ∈ ticks, ¬ progressAt st tc < 1 ∧ u = tc + 50) ∧
    sendOkResponse c = some ['O', 'k', '\n'] := by
  obtain ⟨h1, h2, h3⟩ := animateTrace_complete st ticks hdone
  refine ⟨h1, h2, h3, ?_⟩
  rw [sendOkResponse, hw, hconn]
  rfl

/-- Witness for C4: a 100 ms motion ticked once at `t = 200` completes,
schedules one ack at `250`, and the ack line is `Ok\n`. -/
theorem c4_exactly_one_ack_witness :
    ((animateTrace activeExample [200]).filter
        AnimEvent.isCompletedSignal).length = 1 ∧
    ((animateTrace activeExample [200]).filter
        AnimEvent.isOkScheduled).length = 1 ∧
    (∀ u : ℝ, AnimEvent.okScheduledAt u ∈ animateTrace activeExample [200] →
      ∃ tc ∈ [(200 : ℝ)], ¬ progressAt activeExample tc < 1 ∧ u = tc + 50) ∧
    sendOkResponse ⟨true, true, true, true⟩ = some ['O', 'k', '\n'] :=
  c4_exactly_one_ack activeExample [200] ⟨true, true, true, true⟩
    ⟨200, by simp, by norm_num [progressAt, activeExample, min_def]⟩ rfl rfl

/-! ## Repeated fields, feed-rate fallback, disconnect behaviour -/

/-- A `G06` line in which the `X` field appears twice with different
values (`X10` then `X20`). -/
def dupFieldLine : List Char :=
  ['G', '0', '6', ' ', 'X', '1', '0', ' ', 'X', '2', '0', ' ',
    'F', '5', '0', '0']

/-- Counterexample to C6 as stated: with `X10` and `X20` in one line,
the joint receives `degToRad 10` — the value of the *first* occurrence
(a non-global JavaScript `match` returns the earliest match), not the
last one, and the two candidate values genuinely differ. -/
theorem c6_counterexample_first_not_last :
    decodeWireTarget dupFieldLine Joint.theta1 = some 10 ∧
    decodeTarget dupFieldLine Joint.theta1 = some (degToRad 10) ∧
    degToRad 10 ≠ degToRad 20 := by
  refine ⟨by decide, ?_, ?_⟩
  · rw [decodeTarget, show decodeWireTarget dupFieldLine Joint.theta1 = some 10
      from by decide]
    norm_num
  · intro h
    rw [degToRad, degToRad, div_eq_div_iff (by norm_num) (by norm_num)] at h
    ring_nf at h
    have := Real.pi_pos
    linarith

/-- **C6 amended.** When a per-axis or `F` field letter appears more
than once, the occurrence used is the *first* one in the line that is
followed by a parsable numeric value (earliest-match regex semantics),
regardless of any later occurrences. -/
theorem c6_first_occurrence_wins (letter : Char) (a b : List Char) (q : ℚ)
    (ha : ∀ c ∈ a, c ≠ letter) (hq : parseNum b = some q) :
    firstFieldMatch letter (a ++ letter :: b) = some q := by
  rw [firstFieldMatch_skip ha, firstFieldMatch_hit hq]

/-- Witness for the amended C6: on `G06 X10 X20 F500` the first `X`
field (value `10`) is the one extracted, even though a second `X` field
follows. -/
theorem c6_first_occurrence_wins_witness :
    firstFieldMatch 'X' (['G', '0', '6', ' '] ++ 'X' ::
      ['1', '0', ' ', 'X', '2', '0', ' ', 'F', '5', '0', '0']) = some 10 :=
  c6_first_occurrence_wins 'X' _ _ 10 (by decide) (by decide)

/-- A `G06` motion line carrying an explicitly negative feed rate. -/
def negFeedLine : List Char :=
  ['G', '0', '6', ' ', 'X', '1', '0', ' ', 'F', '-', '5']

/-- Counterexample to C7 as stated: `G06 X10 F-5` decodes to an
accepted motion whose feed rate is `-5` — the code only falls back to
`500` when no parsable `F` value exists and never checks positivity, so
the resulting feed rate is *not* strictly positive and is not the
default. -/
theorem c7_counterexample_negative_feed :
    decodeFeed negFeedLine = -5 ∧
    ¬ (0 : ℚ) < decodeFeed negFeedLine ∧
    decodeFeed negFeedLine ≠ 500 ∧
    decodeMotion negFeedLine = some (decodeTarget negFeedLine, -5) := by
  refine ⟨by decide, by decide, by decide, ?_⟩
  rw [decodeMotion,
    show (isG06 negFeedLine && hasMotionField negFeedLine) = true from by decide,
    show decodeFeed negFeedLine = -5 from by decide]
  rfl

/-- **C7 amended.** The default `500` applies exactly when the line has
no `F` followed by a parsable number (absent or non-numeric `F`); when
a numeric value is present it is used verbatim, with no positivity
check, so a non-positive explicit value becomes the motion's feed rate.
Concretely, `G06 X10` and `G06 X10 Fabc` both fall back to `500`. -/
theorem c7_feed_fallback_rule (command : List Char) :
    (firstFieldMatch 'F' (trimChars command) = none →
      decodeFeed command = 500) ∧
    (∀ q : ℚ, firstFieldMatch 'F' (trimChars command) = some q →
      decodeFeed command = q) ∧
    decodeFeed ['G', '0', '6', ' ', 'X', '1', '0'] = 500 ∧
    decodeFeed ['G', '0', '6', ' ', 'X', '1', '0', ' ', 'F', 'a', 'b', 'c'] =
      500 := by
  refine ⟨?_, ?_, by decide, by decide⟩
  · intro h
    rw [decodeFeed, h]
    rfl
  · intro q h
    rw [decodeFeed, h]
    rfl

/-- Witness for the amended C7: `G06 X10` has no `F` field and its feed
rate decodes to the default `500`. -/
theorem c7_feed_fallback_rule_witness :
    firstFieldMatch 'F'
        (trimChars ['G', '0', '6', ' ', 'X', '1', '0']) = none ∧
    decodeFeed ['G', '0', '6', ' ', 'X', '1', '0'] = 500 :=
  ⟨by decide, (c7_feed_fallback_rule ['G', '0', '6', ' ', 'X', '1', '0']).1
    (by decide)⟩

/-- Counterexample to C8 as stated: with a trajectory in flight,
`disconnectSerial` (even fully successful) leaves `isMoving = true` —
the scheduler is *not* transitioned to Idle by a disconnect, because
`disconnectSerial` contains no `setIsMoving` call and never cancels the
animation-frame chain. -/
theorem c8_counterexample_not_idle :
    ((disconnectSys ⟨⟨true, true, true, true⟩, activeExample⟩ noFail).sched).isMoving
      = true := rfl

/-- **C8 amended.** `disconnect()` leaves the trajectory scheduler
untouched: an in-flight motion keeps animating (and will emit its
completion signal when progress reaches 1 as usual), but no `Ok` line
is sent for it, because after a successful disconnect the writer is
cleared and the connection closed, making `sendOkResponse` a no-op. -/
theorem c8_disconnect_silences_ack (s : SysState) (f : FailSpec) (c : Conn) :
    (disconnectSys s f).sched = s.sched ∧
    animateTrace (disconnectSys s f).sched = animateTrace s.sched ∧
    sendOkResponse (disconnectSerial c noFail) = none := by
  refine ⟨rfl, rfl, ?_⟩
  rw [show disconnectSerial c noFail =
      ⟨false, false, false, false⟩ from by simp [disconnectSerial, noFail]]
  rfl

/-- Counterexample to C9 as stated: if `reader.cancel()` throws, the
single `catch` swallows the error and the writer and port are never
released, and the call ends with `isConnected` still `true` — the
releases are not tolerated independently and the state does not end
Disconnected. -/
theorem c9_counterexample_shared_catch :
    disconnectSerial ⟨true, true, true, true⟩ ⟨true, false, false⟩ =
      ⟨true, true, true, true⟩ ∧
    (disconnectSerial ⟨true, true, true, true⟩ ⟨true, false, false⟩).writer
      = true ∧
    (disconnectSerial ⟨true, true, true, true⟩ ⟨true, false, false⟩).isConnected
      = true := ⟨rfl, rfl, rfl⟩

/-- **C9 amended.** When every release succeeds, `disconnect()`
releases reader, writer and transport in that order, always ends
Disconnected, and is idempotent; but the three releases share one
`try`/`catch`, so a throwing release aborts the remaining ones: a
reader failure leaves the whole connection state (writer, port,
`isConnected`) unchanged. -/
theorem c9_disconnect_ordered_not_independent (c : Conn) (f : FailSpec) :
    disconnectSerial c noFail = ⟨false, false, false, false⟩ ∧
    disconnectSerial (disconnectSerial c noFail) noFail =
      disconnectSerial c noFail ∧
    (c.reader = true → f.readerFails = true → disconnectSerial c f = c) := by
  have h1 : disconnectSerial c noFail = ⟨false, false, false, false⟩ := by
    simp [disconnectSerial, noFail]
  refine ⟨h1, by rw [h1]; rfl, ?_⟩
  intro hr hf
  rw [disconnectSerial, hr, hf]
  rfl

/-- Witness for the amended C9: on a fully live connection whose reader
release throws, `disconnect()` changes nothing. -/
theorem c9_disconnect_ordered_not_independent_witness :
    (⟨true, true, true, true⟩ : Conn).reader = true ∧
    (⟨true, false, false⟩ : FailSpec).readerFails = true ∧
    disconnectSerial ⟨true, true, true, true⟩ ⟨true, false, false⟩ =
      ⟨true, true, true, true⟩ :=
  ⟨rfl, rfl,
    (c9_disconnect_ordered_not_independent ⟨true, true, true, true⟩
      ⟨true, false, false⟩).2.2 rfl rfl⟩
